import Mathlib

/-!
Verification of the attendance poll-dedup-persist-forward pipeline.

The definitions below are a shallow embedding of the JavaScript source:
pure functions become Lean functions, the mutable globals
(allAttendanceRecords, uniqueSignatures) become an explicit `DedupState`
threaded through the operations, the device SDK becomes an explicit
`DeviceBehavior` record of per-step outcomes, and filesystem / HTTP side
effects become explicit values and event lists.  Timestamps are modelled
as the instant they denote, in epoch milliseconds (an `Int`): in the
source a timestamp travels as a JS `Date` or an ISO-8601 string, and the
round-trip `new Date(t).toISOString()` / `new Date(s).getTime()` is the
identity on the denoted instant.
-/

namespace Attendance

/-- A user-table row from one terminal: `{userId, name, role}`.
Role value 14 marks an administrator (`allUsers.filter(u => u.role === 14)`). -/
structure User where
  userId : Nat
  name : String
  role : Int
deriving Repr, DecidableEq

/-- A raw attendance log as returned by the device SDK
(`logs.data` elements), before enrichment. -/
structure RawLog where
  userSn : Nat
  deviceUserId : Nat
  recordTime : Int
deriving Repr, DecidableEq

/-- An enriched attendance record, as built by the `enhancedLogs` map in
`fetchDeviceData` and as persisted in the day file: the raw fields plus
`name`, `type` and `deviceIP`. -/
structure Record where
  userSn : Nat
  deviceUserId : Nat
  name : String
  type : String
  deviceIP : String
  recordTime : Int
deriving Repr, DecidableEq

/-- Function `createRecordSignature` from the source:
`deviceIP + "_" + deviceUserId + "_" + new Date(record.recordTime).getTime()`.
`getTime()` of the stored timestamp is the epoch-millis value itself. -/
def createRecordSignature (r : Record) : String :=
  r.deviceIP ++ "_" ++ toString r.deviceUserId ++ "_" ++ toString r.recordTime

/-- The process-wide mutable dedup state: the accepted-record list
`allAttendanceRecords` and the signature set `uniqueSignatures`
(a JS `Set`, modelled as the list of its insertion order; the code only
inserts a signature after a negative membership test, so the list is the
set). -/
structure DedupState where
  allAttendanceRecords : List Record
  uniqueSignatures : List String
deriving Repr, DecidableEq

/-- The initial global state: both collections empty. -/
def initialState : DedupState := ⟨[], []⟩

/-- One iteration of the dedup loop in `fetchAndSaveNewRecords`:
`if (!uniqueSignatures.has(sig)) { uniqueSignatures.add(sig);
allAttendanceRecords.push(record); newRecordsCount++; }`. -/
def processRecord (s : DedupState) (n : Nat) (r : Record) : DedupState × Nat :=
  let sig := createRecordSignature r
  if sig ∈ s.uniqueSignatures then (s, n)
  else (⟨s.allAttendanceRecords ++ [r], s.uniqueSignatures ++ [sig]⟩, n + 1)

/-- The dedup loop over one device result list
(`deviceData.attendanceLogs.forEach(record => ...)`). -/
def processLogs (s : DedupState) (n : Nat) (logs : List Record) : DedupState × Nat :=
  logs.foldl (fun p r => processRecord p.1 p.2 r) (s, n)

/-- Result object of `fetchDeviceData`, both the online and the offline
shape (the offline shape carries `error` and empty lists). -/
structure FetchResult where
  info : Option String
  allUsers : List User
  adminUsers : List User
  attendanceLogs : List Record
  deviceIP : String
  status : String
  error : Option String := none
deriving Repr, DecidableEq

/-- Outcome of one `Promise.allSettled` slot for a device fetch. -/
inductive Settled where
  | fulfilled (v : FetchResult)
  | rejected (msg : String)
deriving Repr, DecidableEq

/-- The offline result shape produced by the `catch` blocks:
`{info: {}, allUsers: [], adminUsers: [], attendanceLogs: [],
deviceIP: ip, status: offline, error: message}`. -/
def offlineResult (ip msg : String) : FetchResult :=
  { info := none, allUsers := [], adminUsers := [], attendanceLogs := [],
    deviceIP := ip, status := "offline", error := some msg }

deriving instance DecidableEq for Except

/-- Behaviour of one terminal session: the outcome of each awaited SDK
call of `fetchDeviceData`, in program order.  `getUsers`/`getAttendances`
return the optional `.data` payload (`users?.data || []`). -/
structure DeviceBehavior where
  connect : Except String Unit
  getInfo : Except String (Option String)
  getUsers : Except String (Option (List User))
  getAttendances : Except String (Option (List RawLog))
  disconnect : Except String Unit
deriving Repr, DecidableEq

/-- The SDK calls that `fetchDeviceData` can issue, used to record which
calls were attempted on each execution path. -/
inductive SdkCall where
  | createSocket
  | getInfo
  | getUsers
  | getAttendances
  | disconnect
deriving Repr, DecidableEq

/-- Whether an SDK step succeeded. -/
def stepOk {α : Type} : Except String α → Bool
  | .ok _ => true
  | .error _ => false

/-- The name-lookup map built by
`allUsers.forEach(user => { userMap[user.userId] = user.name })`:
a later user with the same `userId` overwrites an earlier one. -/
def userMapLookup (users : List User) (uid : Nat) : Option String :=
  users.foldl (fun acc u => if u.userId == uid then some u.name else acc) none

/-- Lookup `userMap[log.deviceUserId] || 'Unknown'`: an absent entry or a falsy
(empty) name resolves to "Unknown". -/
def resolveName (users : List User) (uid : Nat) : String :=
  match userMapLookup users uid with
  | some n => if n = "" then "Unknown" else n
  | none => "Unknown"

/-- One element of the `enhancedLogs` map: spread of the raw log plus
resolved `name`, the IP-derived `type` (only the fixed terminal
192.168.18.253 yields "IN"), the origin `deviceIP`, and the normalized
timestamp (`new Date(log.recordTime).toISOString()` denotes the same
instant, kept here in epoch millis). -/
def enhanceLog (ip : String) (users : List User) (log : RawLog) : Record :=
  { userSn := log.userSn,
    deviceUserId := log.deviceUserId,
    name := resolveName users log.deviceUserId,
    type := if ip = "192.168.18.253" then "IN" else "OUT",
    deviceIP := ip,
    recordTime := log.recordTime }

/-- Function `fetchDeviceData` from the persisting variant: open the session, read
info, users and logs in sequence, enrich, then disconnect; the value is
the result paired with the list of SDK calls attempted.  Any step's
failure transfers control to the `catch` block, which returns the offline
shape; there is no `finally`, so no further call is attempted after a
failure. -/
def fetchDeviceData (ip : String) (b : DeviceBehavior) : FetchResult × List SdkCall :=
  match b.connect with
  | .error e => (offlineResult ip e, [.createSocket])
  | .ok _ =>
    match b.getInfo with
    | .error e => (offlineResult ip e, [.createSocket, .getInfo])
    | .ok info =>
      match b.getUsers with
      | .error e => (offlineResult ip e, [.createSocket, .getInfo, .getUsers])
      | .ok usersOpt =>
        match b.getAttendances with
        | .error e => (offlineResult ip e, [.createSocket, .getInfo, .getUsers, .getAttendances])
        | .ok logsOpt =>
          let allUsers := usersOpt.getD []
          let adminUsers := allUsers.filter (fun u => u.role == 14)
          let attendanceLogs := logsOpt.getD []
          let enhancedLogs := attendanceLogs.map (enhanceLog ip allUsers)
          match b.disconnect with
          | .error e =>
            (offlineResult ip e,
             [.createSocket, .getInfo, .getUsers, .getAttendances, .disconnect])
          | .ok _ =>
            ({ info := info, allUsers := allUsers, adminUsers := adminUsers,
               attendanceLogs := enhancedLogs, deviceIP := ip, status := "online" },
             [.createSocket, .getInfo, .getUsers, .getAttendances, .disconnect])

/-- The first step of `fetchDeviceData` that fails, with its message, or
`none` when every awaited call succeeds. -/
def firstFailure (b : DeviceBehavior) : Option String :=
  match b.connect with
  | .error e => some e
  | .ok _ =>
    match b.getInfo with
    | .error e => some e
    | .ok _ =>
      match b.getUsers with
      | .error e => some e
      | .ok _ =>
        match b.getAttendances with
        | .error e => some e
        | .ok _ =>
          match b.disconnect with
          | .error e => some e
          | .ok _ => none

/-- One `results.forEach` step restricted to the dedup state and the
`newRecordsCount` counter: a fulfilled device result has its enriched
logs run through the dedup loop; a rejected one contributes nothing. -/
def dedupStep (p : DedupState × Nat) (res : String × Settled) : DedupState × Nat :=
  match res.2 with
  | .fulfilled d => processLogs p.1 p.2 d.attendanceLogs
  | .rejected _ => p

/-- The dedup part of the `results.forEach` loop over all settled device
results of one cycle. -/
def dedupFold (p : DedupState × Nat) (results : List (String × Settled)) : DedupState × Nat :=
  results.foldl dedupStep p

/-- List `combinedLogs`: the concatenation of the enriched logs of the
fulfilled device results, in device order. -/
def fulfilledLogs (results : List (String × Settled)) : List Record :=
  results.foldl
    (fun acc r => match r.2 with
      | .fulfilled d => acc ++ d.attendanceLogs
      | .rejected _ => acc) []

/-- List `combinedAllUsers`: the concatenation of the user lists of the
fulfilled device results, in device order (before deduplication). -/
def fulfilledUsers (results : List (String × Settled)) : List User :=
  results.foldl
    (fun acc r => match r.2 with
      | .fulfilled d => acc ++ d.allUsers
      | .rejected _ => acc) []

/-- List `combinedAdminUsers`: the concatenation of the admin-user lists of
the fulfilled device results. -/
def fulfilledAdmins (results : List (String × Settled)) : List User :=
  results.foldl
    (fun acc r => match r.2 with
      | .fulfilled d => acc ++ d.adminUsers
      | .rejected _ => acc) []

/-- One keyed insertion into the JS `Map` built by
`new Map(users.map(user => [user.userId, user]))`: an existing key keeps
its position but takes the new value; a fresh key is appended. -/
def mapSetEntry (acc : List User) (u : User) : List User :=
  if acc.any (fun v => v.userId == u.userId) then
    acc.map (fun v => if v.userId == u.userId then u else v)
  else acc ++ [u]

/-- Expression `[...new Map(users.map(user => [user.userId, user])).values()]`:
deduplicate by `userId`, the later occurrence supplying the kept entry. -/
def dedupByUserId (l : List User) : List User := l.foldl mapSetEntry []

/-- The dedup used by the non-persisting variant of the app
(`fetchAllDeviceData`): `users.filter((user, index, self) =>
index === self.findIndex(u => u.userId === user.userId))`, which keeps
the first occurrence of each `userId`. -/
def dedupKeepFirst (l : List User) : List User :=
  (l.enum.filter (fun p => l.findIdx (fun u => u.userId == p.2.userId) == p.1)).map
    (fun p => p.2)

/-- The combined data built by `fetchAllDeviceData` in the
non-persisting variant: concatenated lists, user lists deduplicated with
the `filter`/`findIndex` idiom. -/
structure CombinedDataV1 where
  allUsers : List User
  adminUsers : List User
  attendanceLogs : List Record
deriving Repr, DecidableEq

/-- The `combinedData` of `fetchAllDeviceData` (first variant). -/
def fetchAllDeviceDataCombined (results : List (String × Settled)) : CombinedDataV1 :=
  { allUsers := dedupKeepFirst (fulfilledUsers results),
    adminUsers := dedupKeepFirst (fulfilledAdmins results),
    attendanceLogs := fulfilledLogs results }

/-- The synthetic `info` of the combined view:
`{type, userCounts, logCount}` with the pre-dedup lengths. -/
structure CombinedInfo where
  type : String
  userCounts : Nat
  logCount : Nat
deriving Repr, DecidableEq

/-- The `currentBatchData['combined']` snapshot of
`fetchAndSaveNewRecords`. -/
structure CombinedSnapshot where
  info : CombinedInfo
  allUsers : List User
  adminUsers : List User
  attendanceLogs : List Record
  deviceIP : String
  status : String
deriving Repr, DecidableEq

/-- The value and effects of one `fetchAndSaveNewRecords` run: the new
global state, the day-file content after the run, the list of
`writeFileSync` payloads performed, the per-device batch, the combined
snapshot, and the returned counters. -/
structure CycleResult where
  state : DedupState
  store : Option (List Record)
  writes : List (List Record)
  batch : List (String × FetchResult)
  combined : CombinedSnapshot
  newRecordsCount : Nat
  totalRecords : Nat
deriving Repr, DecidableEq

/-- Function `fetchAndSaveNewRecords`, as a function of the starting global state,
the current day-file content, and the settled per-device fetch results.
The dedup loop, the combined-list accumulation and the per-device batch
assembly are the three independent strands of the single
`results.forEach` in the source, written here as separate folds over the
same list.  `saveRecords()` (a full overwrite of the day file with
`allAttendanceRecords`) runs only when `newRecordsCount > 0`. -/
def fetchAndSaveNewRecords (s : DedupState) (store : Option (List Record))
    (results : List (String × Settled)) : CycleResult :=
  let p := dedupFold (s, 0) results
  let combinedLogs := fulfilledLogs results
  let combinedAllUsers := fulfilledUsers results
  let combinedAdminUsers := fulfilledAdmins results
  { state := p.1,
    store := if 0 < p.2 then some p.1.allAttendanceRecords else store,
    writes := if 0 < p.2 then [p.1.allAttendanceRecords] else [],
    batch := results.map (fun r => (r.1,
      match r.2 with
      | .fulfilled d => d
      | .rejected m => offlineResult r.1 m)),
    combined :=
      { info := { type := "Combined View",
                  userCounts := combinedAllUsers.length,
                  logCount := combinedLogs.length },
        allUsers := dedupByUserId combinedAllUsers,
        adminUsers := dedupByUserId combinedAdminUsers,
        attendanceLogs := combinedLogs,
        deviceIP := "Multiple Devices",
        status := "online" },
    newRecordsCount := p.2,
    totalRecords := p.1.allAttendanceRecords.length }

/-- One `data.forEach` step of `loadExistingRecords`: register the
signature of a well-formed item and keep the item unless its signature
was already registered.  The JS guard `item.deviceUserId &&
item.recordTime` is a truthiness test; on the numeric model a zero user
id or a zero instant is the falsy case. -/
def loadItem (s : DedupState) (item : Record) : DedupState :=
  if item.deviceUserId ≠ 0 ∧ item.recordTime ≠ 0 then
    let sig := createRecordSignature item
    if sig ∈ s.uniqueSignatures then s
    else ⟨s.allAttendanceRecords ++ [item], s.uniqueSignatures ++ [sig]⟩
  else s

/-- Function `loadExistingRecords`: reset both globals, then rebuild them from the
parsed day file.  A missing file, a parse failure, or non-array content
(`none` here) leaves the state empty. -/
def loadExistingRecords (fileData : Option (List Record)) : DedupState :=
  match fileData with
  | some items => items.foldl loadItem initialState
  | none => initialState

/-- One state-affecting operation of the process lifetime: a startup or
error-path store load, or one pipeline cycle over settled device
results. -/
inductive StoreOp where
  | load (fileData : Option (List Record))
  | cycle (results : List (String × Settled))

/-- Run a sequence of loads and cycles against the global dedup state. -/
def runOps (s : DedupState) : List StoreOp → DedupState
  | [] => s
  | .load fd :: rest => runOps (loadExistingRecords fd) rest
  | .cycle rs :: rest => runOps (fetchAndSaveNewRecords s none rs).state rest

/-- The downstream collector's record schema, the target of
`convertToCSharpFormat`. -/
structure CSharpRecord where
  UserSN : Nat
  DeviceUserID : String
  UserName : String
  RecordTime : Int
  DeviceIP : String
  «Type» : String
deriving Repr, DecidableEq

/-- Function `convertToCSharpFormat`: field renames, identifier stringification
(`log.deviceUserId?.toString() || ''`), falsy-name and falsy-type
fallbacks, and the timestamp re-wrapped as a date of the same instant. -/
def convertToCSharpFormat (logs : List Record) : List CSharpRecord :=
  logs.map (fun log =>
    { UserSN := log.userSn,
      DeviceUserID := toString log.deviceUserId,
      UserName := if log.name = "" then "Unknown" else log.name,
      RecordTime := log.recordTime,
      DeviceIP := log.deviceIP,
      «Type» := if log.type = "" then "UNKNOWN" else log.type })

/-- Result object of `sendToCSharpAPI`. -/
structure ForwardResult where
  success : Bool
  message : Option String := none
  data : Option String := none
  error : Option String := none
  recordsSent : Option Nat := none
deriving Repr, DecidableEq

/-- An observable side effect of the sync cycle: one full-file store
write, or one HTTP POST of a converted batch to the collector. -/
inductive SideEffect where
  | saveFile (records : List Record)
  | httpPost (payload : List CSharpRecord)
deriving Repr, DecidableEq

/-- Function `sendToCSharpAPI`: a no-op failure result on an empty batch,
otherwise one POST of the converted batch whose outcome (the response
data or the thrown error message) is the `outcome` argument. -/
def sendToCSharpAPI (records : List Record) (outcome : Except String String) :
    ForwardResult × List SideEffect :=
  if records.length = 0 then
    ({ success := false, message := some "No records to send" }, [])
  else
    match outcome with
    | .ok d =>
      ({ success := true, data := some d, recordsSent := some records.length },
       [.httpPost (convertToCSharpFormat records)])
    | .error e =>
      ({ success := false, error := some e, recordsSent := some 0 },
       [.httpPost (convertToCSharpFormat records)])

/-- Operation `array.slice(-n)`: the last `n` elements. -/
def jsSliceLast {α : Type} (n : Nat) (l : List α) : List α :=
  l.drop (l.length - n)

/-- The value of one `fetchAndSendToAPI` run (part_000 variant): the new
global state, the day-file content afterwards, the forward result
(`none` when no forward was attempted), and the returned counters. -/
structure SyncResult where
  state : DedupState
  store : Option (List Record)
  apiResult : Option ForwardResult
  newRecordsCount : Nat
  totalRecords : Nat
deriving Repr, DecidableEq

/-- Function `fetchAndSendToAPI` from the forwarding variant: run the same dedup
fold, and when new records exist, first `saveRecords()` (commit the full
list locally), then send `allAttendanceRecords.slice(-newRecordsCount)`
to the collector.  The pair's second component is the ordered list of
side effects performed. -/
def fetchAndSendToAPI (s : DedupState) (store : Option (List Record))
    (results : List (String × Settled)) (outcome : Except String String) :
    SyncResult × List SideEffect :=
  let p := dedupFold (s, 0) results
  if 0 < p.2 then
    let newRecords := jsSliceLast p.2 p.1.allAttendanceRecords
    let api := sendToCSharpAPI newRecords outcome
    ({ state := p.1, store := some p.1.allAttendanceRecords,
       apiResult := some api.1, newRecordsCount := p.2,
       totalRecords := p.1.allAttendanceRecords.length },
     SideEffect.saveFile p.1.allAttendanceRecords :: api.2)
  else
    ({ state := p.1, store := store, apiResult := none,
       newRecordsCount := p.2, totalRecords := p.1.allAttendanceRecords.length },
     [])

/-- Days from 1970-01-01 to the civil date y-m-d (proleptic Gregorian),
by the standard era decomposition. -/
def daysFromCivil (y m d : Int) : Int :=
  let y' := if m ≤ 2 then y - 1 else y
  let era : Int := (if 0 ≤ y' then y' else y' - 399) / 400
  let yoe := y' - era * 400
  let mp := (m + 9) % 12
  let doy := (153 * mp + 2) / 5 + d - 1
  let doe := yoe * 365 + yoe / 4 - yoe / 100 + doy
  era * 146097 + doe - 719468

/-- Epoch milliseconds of a UTC civil date-time, the value
`new Date(isoString).getTime()` yields for that instant. -/
def epochMillis (y m d hh mi ss : Int) : Int :=
  ((daysFromCivil y m d) * 86400 + hh * 3600 + mi * 60 + ss) * 1000

/-- Test `filename.includes('..')`: whether two consecutive dots occur
anywhere in the name. -/
def hasDotDot : List Char → Bool
  | c :: d :: rest => (decide (c = '.') && decide (d = '.')) || hasDotDot (d :: rest)
  | _ => false

/-- Test `filename.endsWith('.json')`. -/
def endsWithJson (s : List Char) : Bool :=
  decide (s.drop (s.length - 5) = ".json".toList)

/-- The filename guard of the `/api/files/:filename` read and delete
endpoints: reject when the name contains `..` or does not end in
`.json`. -/
def validFilename (s : List Char) : Bool :=
  !hasDotDot s && endsWithJson s

/-- Modelled from the spec: a "bare day-stamped filename" is exactly a
name of the shape `attendance_YYYY-MM-DD.json` with decimal digits in
the date positions, the shape `saveRecords` produces.  This is the
refinement-side definition the validation is compared against; it is not
present in the code. -/
def isDayStampedFilename (s : List Char) : Bool :=
  match s with
  | 'a' :: 't' :: 't' :: 'e' :: 'n' :: 'd' :: 'a' :: 'n' :: 'c' :: 'e' :: '_' ::
    y1 :: y2 :: y3 :: y4 :: '-' :: m1 :: m2 :: '-' :: d1 :: d2 ::
    '.' :: 'j' :: 's' :: 'o' :: 'n' :: [] =>
    y1.isDigit && y2.isDigit && y3.isDigit && y4.isDigit &&
    m1.isDigit && m2.isDigit && d1.isDigit && d2.isDigit
  | _ => false

/-- Path segments of a name, split on `/`. -/
def splitOnSlash : List Char → List (List Char)
  | [] => [[]]
  | c :: rest =>
    if c = '/' then [] :: splitOnSlash rest
    else
      match splitOnSlash rest with
      | seg :: segs => (c :: seg) :: segs
      | [] => [[c]]

/-- The data directory contents: filename-to-content associations. -/
def FileStore := List (List Char × String)

/-- Content of a file in the store, if present (`fs.existsSync` /
`fs.readFileSync`). -/
def lookupFile (fs : FileStore) (name : List Char) : Option String :=
  match fs with
  | [] => none
  | (n, c) :: rest => if n = name then some c else lookupFile rest name

/-- Operation `fs.unlinkSync`: drop the named file. -/
def removeFile (fs : FileStore) (name : List Char) : FileStore :=
  match fs with
  | [] => []
  | (n, c) :: rest =>
    if n = name then removeFile rest name else (n, c) :: removeFile rest name

/-- The HTTP response of a file endpoint. -/
inductive ApiResponse where
  | ok (body : String)
  | badRequest (msg : String)
  | notFound (msg : String)
deriving Repr, DecidableEq

/-- Endpoint `GET /api/files/:filename`: validate, then look the file up and
return its content.  The second component records whether a file read
was performed. -/
def readDayEndpoint (name : List Char) (fs : FileStore) : ApiResponse × Bool :=
  if validFilename name then
    match lookupFile fs name with
    | some content => (.ok content, true)
    | none => (.notFound "File not found", false)
  else (.badRequest "Invalid filename", false)

/-- Endpoint `DELETE /api/files/:filename`: validate, then delete the file.  The
second component is the file store after the request. -/
def deleteDayEndpoint (name : List Char) (fs : FileStore) : ApiResponse × FileStore :=
  if validFilename name then
    match lookupFile fs name with
    | some _ => (.ok "File deleted successfully", removeFile fs name)
    | none => (.notFound "File not found", fs)
  else (.badRequest "Invalid filename", fs)

/-- The end-to-end scenario device of the spec: the user table holds
Alice (user 7, role 0) and the log buffer holds one raw log for user 7
at 2024-01-01T08:00:00Z; every SDK call succeeds. -/
def scenarioBehavior : DeviceBehavior :=
  { connect := .ok (),
    getInfo := .ok none,
    getUsers := .ok (some [⟨7, "Alice", 0⟩]),
    getAttendances := .ok (some [⟨0, 7, epochMillis 2024 1 1 8 0 0⟩]),
    disconnect := .ok () }

/-- One cycle over the single scenario terminal 10.0.0.1, starting from
the empty global state and no day file. -/
def scenarioCycle : CycleResult :=
  fetchAndSaveNewRecords initialState none
    [("10.0.0.1", .fulfilled (fetchDeviceData "10.0.0.1" scenarioBehavior).1)]

/-! ### Signature-uniqueness invariant -/

/-- The dedup-state invariant: every accepted record's signature is
registered, and no two accepted records share a signature. -/
def sigInvariant (s : DedupState) : Prop :=
  (∀ r ∈ s.allAttendanceRecords, createRecordSignature r ∈ s.uniqueSignatures) ∧
  s.allAttendanceRecords.Pairwise
    (fun a b => createRecordSignature a ≠ createRecordSignature b)

theorem initialState_sigInvariant : sigInvariant initialState := by
  constructor
  · intro r hr; simp [initialState] at hr
  · simp [initialState]

theorem sigInvariant_append (s : DedupState) (r : Record) (h : sigInvariant s)
    (hnot : createRecordSignature r ∉ s.uniqueSignatures) :
    sigInvariant ⟨s.allAttendanceRecords ++ [r],
                  s.uniqueSignatures ++ [createRecordSignature r]⟩ := by
  constructor
  · intro x hx
    rcases List.mem_append.mp hx with hx | hx
    · exact List.mem_append.mpr (Or.inl (h.1 x hx))
    · simp only [List.mem_singleton] at hx
      subst hx
      simp
  · refine List.pairwise_append.mpr ⟨h.2, List.pairwise_singleton _ _, ?_⟩
    intro a ha b hb
    simp only [List.mem_singleton] at hb
    subst hb
    intro he
    exact hnot (he ▸ h.1 a ha)

theorem processRecord_sigInvariant (s : DedupState) (n : Nat) (r : Record)
    (h : sigInvariant s) : sigInvariant (processRecord s n r).1 := by
  unfold processRecord
  by_cases hs : createRecordSignature r ∈ s.uniqueSignatures
  · simpa [hs] using h
  · simpa [hs] using sigInvariant_append s r h hs

/-- A fold preserves any property its step preserves. -/
theorem foldlPreserves {α σ : Type} {P : σ → Prop} {f : σ → α → σ}
    (hf : ∀ s a, P s → P (f s a)) :
    ∀ (l : List α) (s : σ), P s → P (l.foldl f s) := by
  intro l
  induction l with
  | nil => intro s hs; exact hs
  | cons a l ih => intro s hs; exact ih _ (hf s a hs)

theorem processLogs_sigInvariant (s : DedupState) (n : Nat) (logs : List Record)
    (h : sigInvariant s) : sigInvariant (processLogs s n logs).1 := by
  unfold processLogs
  exact foldlPreserves (P := fun p => sigInvariant p.1)
    (fun p r hp => processRecord_sigInvariant p.1 p.2 r hp) logs (s, n) h

theorem dedupFold_sigInvariant (p : DedupState × Nat)
    (results : List (String × Settled)) (h : sigInvariant p.1) :
    sigInvariant (dedupFold p results).1 := by
  unfold dedupFold
  refine foldlPreserves (P := fun q => sigInvariant q.1) ?_ results p h
  intro q res hq
  unfold dedupStep
  cases res.2 with
  | fulfilled d => exact processLogs_sigInvariant q.1 q.2 d.attendanceLogs hq
  | rejected m => exact hq

theorem loadItem_sigInvariant (s : DedupState) (item : Record)
    (h : sigInvariant s) : sigInvariant (loadItem s item) := by
  unfold loadItem
  by_cases hg : item.deviceUserId ≠ 0 ∧ item.recordTime ≠ 0
  · by_cases hs : createRecordSignature item ∈ s.uniqueSignatures
    · simpa [hg, hs] using h
    · simpa [hg, hs] using sigInvariant_append s item h hs
  · simpa [hg] using h

theorem loadExistingRecords_sigInvariant (fileData : Option (List Record)) :
    sigInvariant (loadExistingRecords fileData) := by
  unfold loadExistingRecords
  cases fileData with
  | none => exact initialState_sigInvariant
  | some items =>
    exact foldlPreserves (fun s item hs => loadItem_sigInvariant s item hs)
      items initialState initialState_sigInvariant

theorem runOps_sigInvariant (ops : List StoreOp) (s : DedupState)
    (h : sigInvariant s) : sigInvariant (runOps s ops) := by
  induction ops generalizing s with
  | nil => exact h
  | cons op rest ih =>
    cases op with
    | load fd =>
      exact ih (loadExistingRecords fd) (loadExistingRecords_sigInvariant fd)
    | cycle rs =>
      exact ih _ (dedupFold_sigInvariant (s, 0) rs h)

/-- C1: for every sequence of cycle runs and store loads starting from
the empty process state, the accepted-record list (the list
`saveRecords` persists) never holds two records with equal signatures:
the cycle's dedup loop appends a record only when its signature is
unregistered, and the load path registers each kept record's signature
and skips records whose signature is already registered. -/
theorem persistedSignaturesUnique (ops : List StoreOp) :
    ((runOps initialState ops).allAttendanceRecords).Pairwise
      (fun a b => createRecordSignature a ≠ createRecordSignature b) :=
  (runOps_sigInvariant ops initialState initialState_sigInvariant).2

/-! ### Unfolding equations for the dedup folds -/

theorem processLogs_nil (s : DedupState) (n : Nat) : processLogs s n [] = (s, n) := rfl

theorem processLogs_cons (s : DedupState) (n : Nat) (r : Record) (rest : List Record) :
    processLogs s n (r :: rest) =
      processLogs (processRecord s n r).1 (processRecord s n r).2 rest := rfl

theorem dedupFold_nil (p : DedupState × Nat) : dedupFold p [] = p := rfl

theorem dedupFold_cons (p : DedupState × Nat) (a : String × Settled)
    (rest : List (String × Settled)) :
    dedupFold p (a :: rest) = dedupFold (dedupStep p a) rest := rfl

/-! ### Monotonicity and saturation of the signature set -/

theorem processRecord_sigs_mono (s : DedupState) (n : Nat) (r : Record) (x : String)
    (hx : x ∈ s.uniqueSignatures) : x ∈ (processRecord s n r).1.uniqueSignatures := by
  unfold processRecord
  by_cases hs : createRecordSignature r ∈ s.uniqueSignatures
  · simpa [hs] using hx
  · simp only [hs, if_neg, ite_false]
    exact List.mem_append.mpr (Or.inl hx)

theorem processRecord_adds (s : DedupState) (n : Nat) (r : Record) :
    createRecordSignature r ∈ (processRecord s n r).1.uniqueSignatures := by
  unfold processRecord
  by_cases hs : createRecordSignature r ∈ s.uniqueSignatures
  · simp [hs]
  · simp [hs]

theorem processLogs_sigs_mono (logs : List Record) (s : DedupState) (n : Nat) (x : String)
    (hx : x ∈ s.uniqueSignatures) : x ∈ (processLogs s n logs).1.uniqueSignatures := by
  induction logs generalizing s n with
  | nil => exact hx
  | cons a rest ih =>
    rw [processLogs_cons]
    exact ih _ _ (processRecord_sigs_mono s n a x hx)

theorem processLogs_all_known (logs : List Record) (s : DedupState) (n : Nat) :
    ∀ r ∈ logs, createRecordSignature r ∈ (processLogs s n logs).1.uniqueSignatures := by
  induction logs generalizing s n with
  | nil => intro r hr; cases hr
  | cons a rest ih =>
    intro r hr
    rw [processLogs_cons]
    rcases List.mem_cons.mp hr with rfl | hr
    · exact processLogs_sigs_mono rest _ _ _ (processRecord_adds s n r)
    · exact ih _ _ r hr

theorem processLogs_noop (logs : List Record) (s : DedupState) (n : Nat)
    (h : ∀ r ∈ logs, createRecordSignature r ∈ s.uniqueSignatures) :
    processLogs s n logs = (s, n) := by
  induction logs generalizing n with
  | nil => rfl
  | cons a rest ih =>
    rw [processLogs_cons]
    have ha : createRecordSignature a ∈ s.uniqueSignatures := h a (List.mem_cons_self a rest)
    have hpr : processRecord s n a = (s, n) := by
      unfold processRecord; simp [ha]
    rw [hpr]
    exact ih n (fun r hr => h r (List.mem_cons_of_mem a hr))

theorem dedupFold_sigs_mono (results : List (String × Settled)) (p : DedupState × Nat)
    (x : String) (hx : x ∈ p.1.uniqueSignatures) :
    x ∈ (dedupFold p results).1.uniqueSignatures := by
  induction results generalizing p with
  | nil => exact hx
  | cons a rest ih =>
    rw [dedupFold_cons]
    refine ih (dedupStep p a) ?_
    unfold dedupStep
    cases a.2 with
    | fulfilled d => exact processLogs_sigs_mono d.attendanceLogs p.1 p.2 x hx
    | rejected m => exact hx

/-- Every enriched log of every fulfilled result of a cycle has its
signature registered once the cycle's dedup fold has run. -/
def allLogsKnown (s : DedupState) (results : List (String × Settled)) : Prop :=
  ∀ res ∈ results, ∀ d, res.2 = Settled.fulfilled d →
    ∀ r ∈ d.attendanceLogs, createRecordSignature r ∈ s.uniqueSignatures

theorem dedupFold_all_known (results : List (String × Settled)) (p : DedupState × Nat) :
    allLogsKnown (dedupFold p results).1 results := by
  induction results generalizing p with
  | nil => intro res hres; cases hres
  | cons a rest ih =>
    intro res hres d hd r hr
    rcases List.mem_cons.mp hres with rfl | hres
    · rw [dedupFold_cons]
      have h1 : createRecordSignature r ∈ (dedupStep p res).1.uniqueSignatures := by
        unfold dedupStep
        rw [hd]
        exact processLogs_all_known d.attendanceLogs p.1 p.2 r hr
      exact dedupFold_sigs_mono rest _ _ h1
    · exact ih (dedupStep p a) res hres d hd r hr

theorem dedupFold_noop (results : List (String × Settled)) (s : DedupState) (n : Nat)
    (h : allLogsKnown s results) : dedupFold (s, n) results = (s, n) := by
  induction results generalizing n with
  | nil => rfl
  | cons a rest ih =>
    rw [dedupFold_cons]
    have hstep : dedupStep (s, n) a = (s, n) := by
      unfold dedupStep
      cases ha : a.2 with
      | fulfilled d =>
        exact processLogs_noop d.attendanceLogs s n
          (fun r hr => h a (List.mem_cons_self a rest) d ha r hr)
      | rejected m => rfl
    rw [hstep]
    exact ih n (fun res hres d hd r hr => h res (List.mem_cons_of_mem a hres) d hd r hr)

/-- C4: for every starting dedup state (and day-file content), running
the cycle twice with the same settled device results yields
`newRecordsCount == 0` on the second run: the first run registers every
processed signature, so no log passes the membership test again. -/
theorem secondCycleNoNewRecords (s : DedupState) (store store2 : Option (List Record))
    (results : List (String × Settled)) :
    (fetchAndSaveNewRecords (fetchAndSaveNewRecords s store results).state store2
      results).newRecordsCount = 0 := by
  have hknown : allLogsKnown (dedupFold (s, 0) results).1 results :=
    dedupFold_all_known results (s, 0)
  have hcount : (fetchAndSaveNewRecords (fetchAndSaveNewRecords s store results).state
      store2 results).newRecordsCount
      = (dedupFold ((dedupFold (s, 0) results).1, 0) results).2 := rfl
  rw [hcount, dedupFold_noop results _ 0 hknown]

/-! ### The counter only grows with accepted records -/

theorem processRecord_count_le (s : DedupState) (n : Nat) (r : Record) :
    n ≤ (processRecord s n r).2 := by
  unfold processRecord
  by_cases hs : createRecordSignature r ∈ s.uniqueSignatures
  · simp [hs]
  · simp [hs]

theorem processRecord_count_eq (s : DedupState) (n : Nat) (r : Record)
    (h : (processRecord s n r).2 = n) : processRecord s n r = (s, n) := by
  unfold processRecord at h ⊢
  by_cases hs : createRecordSignature r ∈ s.uniqueSignatures
  · simp [hs]
  · simp [hs] at h

theorem processLogs_count_le (logs : List Record) (s : DedupState) (n : Nat) :
    n ≤ (processLogs s n logs).2 := by
  induction logs generalizing s n with
  | nil => exact Nat.le_refl n
  | cons a rest ih =>
    rw [processLogs_cons]
    exact Nat.le_trans (processRecord_count_le s n a) (ih _ _)

theorem processLogs_count_eq (logs : List Record) (s : DedupState) (n : Nat)
    (h : (processLogs s n logs).2 = n) : processLogs s n logs = (s, n) := by
  induction logs generalizing s n with
  | nil => rfl
  | cons a rest ih =>
    rw [processLogs_cons] at h ⊢
    have h2 : (processRecord s n a).2 = n := by
      have hle1 := processRecord_count_le s n a
      have hle2 := processLogs_count_le rest (processRecord s n a).1 (processRecord s n a).2
      omega
    have hpr : processRecord s n a = (s, n) := processRecord_count_eq s n a h2
    rw [hpr] at h ⊢
    exact ih s n h

theorem dedupFold_count_le (results : List (String × Settled)) (p : DedupState × Nat) :
    p.2 ≤ (dedupFold p results).2 := by
  induction results generalizing p with
  | nil => exact Nat.le_refl _
  | cons a rest ih =>
    rw [dedupFold_cons]
    refine Nat.le_trans ?_ (ih (dedupStep p a))
    unfold dedupStep
    cases a.2 with
    | fulfilled d => exact processLogs_count_le d.attendanceLogs p.1 p.2
    | rejected m => exact Nat.le_refl _

theorem dedupFold_count_eq (results : List (String × Settled)) (s : DedupState) (n : Nat)
    (h : (dedupFold (s, n) results).2 = n) : dedupFold (s, n) results = (s, n) := by
  induction results generalizing s n with
  | nil => rfl
  | cons a rest ih =>
    rw [dedupFold_cons] at h ⊢
    have h2 : (dedupStep (s, n) a).2 = n := by
      have hle1 : n ≤ (dedupStep (s, n) a).2 := by
        unfold dedupStep
        cases a.2 with
        | fulfilled d => exact processLogs_count_le d.attendanceLogs s n
        | rejected m => exact Nat.le_refl _
      have hle2 := dedupFold_count_le rest (dedupStep (s, n) a)
      omega
    have hstep : dedupStep (s, n) a = (s, n) := by
      unfold dedupStep at h2 ⊢
      cases ha : a.2 with
      | fulfilled d =>
        rw [ha] at h2
        exact processLogs_count_eq d.attendanceLogs s n h2
      | rejected m => rfl
    rw [hstep] at h ⊢
    exact ih s n h

/-- C7: a cycle whose new-record count is zero performs no store write:
no `writeFileSync` payload is produced, the day file is left as it was,
and the accepted-record list is unchanged. -/
theorem zeroNewRecordsNoWrite (s : DedupState) (store : Option (List Record))
    (results : List (String × Settled))
    (h : (fetchAndSaveNewRecords s store results).newRecordsCount = 0) :
    (fetchAndSaveNewRecords s store results).writes = [] ∧
    (fetchAndSaveNewRecords s store results).store = store ∧
    (fetchAndSaveNewRecords s store results).state.allAttendanceRecords
      = s.allAttendanceRecords := by
  have h0 : (dedupFold (s, 0) results).2 = 0 := h
  have hfold : dedupFold (s, 0) results = (s, 0) := dedupFold_count_eq results s 0 h0
  refine ⟨?_, ?_, ?_⟩ <;> simp [fetchAndSaveNewRecords, hfold]

/-- Witness for C7 at a cycle with no device results. -/
theorem zeroNewRecordsNoWriteWitness :
    (fetchAndSaveNewRecords initialState none []).writes = [] ∧
    (fetchAndSaveNewRecords initialState none []).store = none ∧
    (fetchAndSaveNewRecords initialState none []).state.allAttendanceRecords
      = initialState.allAttendanceRecords :=
  zeroNewRecordsNoWrite initialState none [] rfl

/-! ### Per-device fetch: failure handling and teardown -/

/-- A session where the socket opens, the info read succeeds, and the
user-table read fails. -/
def usersFailBehavior : DeviceBehavior :=
  { connect := .ok (),
    getInfo := .ok none,
    getUsers := .error "read users failed",
    getAttendances := .ok none,
    disconnect := .ok () }

/-- C5: whenever any awaited SDK step of the per-device fetch fails,
`fetchDeviceData` returns the structured offline result carrying that
step's error message and empty user/admin/log lists; the embedding is a
total function, so no exception ever reaches the caller. -/
theorem fetchOfflineOnFailure (ip : String) (b : DeviceBehavior) (e : String)
    (h : firstFailure b = some e) :
    (fetchDeviceData ip b).1 = offlineResult ip e := by
  rcases b with ⟨bc, bi, bu, ba, bd⟩
  cases bc <;> cases bi <;> cases bu <;> cases ba <;> cases bd <;>
    simp_all [fetchDeviceData, firstFailure]

/-- Witness for C5: the user-table read fails, and the fetch returns the
offline shape with that message. -/
theorem fetchOfflineOnFailureWitness :
    firstFailure usersFailBehavior = some "read users failed" ∧
    (fetchDeviceData "192.168.18.252" usersFailBehavior).1
      = offlineResult "192.168.18.252" "read users failed" :=
  ⟨rfl, fetchOfflineOnFailure "192.168.18.252" usersFailBehavior "read users failed" rfl⟩

/-- Counterexample to C6: with the session opened (the connect step
succeeded) and the user-table read failing, the `catch` path returns
without ever attempting `disconnect` — there is no `finally` in the
source. -/
theorem disconnectSkippedCex :
    stepOk usersFailBehavior.connect = true ∧
    SdkCall.disconnect ∉ (fetchDeviceData "192.168.18.253" usersFailBehavior).2 := by
  constructor
  · rfl
  · decide

/-- C6 amended: the session teardown is attempted exactly on the paths
where the connect and all three reads succeed (whether or not the
disconnect itself then succeeds); on any earlier failure no teardown is
attempted. -/
theorem disconnectAttemptedIffReadsOk (ip : String) (b : DeviceBehavior) :
    SdkCall.disconnect ∈ (fetchDeviceData ip b).2 ↔
      (stepOk b.connect = true ∧ stepOk b.getInfo = true ∧
       stepOk b.getUsers = true ∧ stepOk b.getAttendances = true) := by
  rcases b with ⟨bc, bi, bu, ba, bd⟩
  cases bc <;> cases bi <;> cases bu <;> cases ba <;> cases bd <;>
    simp [fetchDeviceData, stepOk]

/-! ### The end-to-end scenario -/

/-- Counterexample to C3: in the end-to-end scenario on terminal
10.0.0.1 the enriched record's `type` is "OUT", not the claimed "IN" —
the code derives "IN" only for the fixed terminal 192.168.18.253. -/
theorem scenarioTypeIsOutCex :
    scenarioCycle.combined.attendanceLogs.map (fun r => r.type) = ["OUT"] ∧
    ("OUT" : String) ≠ "IN" := by
  constructor
  · rfl
  · decide

/-- C3 amended: the scenario cycle produces exactly the enriched record
with name "Alice", type "OUT" (10.0.0.1 is not the fixed IN terminal),
origin 10.0.0.1 and the instant 2024-01-01T08:00:00Z, and counts one new
record. -/
theorem scenarioEnrichedRecord :
    scenarioCycle.combined.attendanceLogs =
      [{ userSn := 0, deviceUserId := 7, name := "Alice", type := "OUT",
         deviceIP := "10.0.0.1", recordTime := epochMillis 2024 1 1 8 0 0 }] ∧
    scenarioCycle.newRecordsCount = 1 ∧
    scenarioCycle.totalRecords = 1 := by
  refine ⟨rfl, rfl, rfl⟩

/-! ### Forwarding is independent of local persistence -/

theorem processRecord_len (s : DedupState) (n : Nat) (r : Record) :
    ((processRecord s n r).1.allAttendanceRecords).length + n
      = s.allAttendanceRecords.length + (processRecord s n r).2 := by
  unfold processRecord
  by_cases hs : createRecordSignature r ∈ s.uniqueSignatures
  · simp [hs]
  · simp [hs]
    omega

theorem processLogs_len (logs : List Record) (s : DedupState) (n : Nat) :
    ((processLogs s n logs).1.allAttendanceRecords).length + n
      = s.allAttendanceRecords.length + (processLogs s n logs).2 := by
  induction logs generalizing s n with
  | nil => rfl
  | cons a rest ih =>
    rw [processLogs_cons]
    have h1 := processRecord_len s n a
    have h2 := ih (processRecord s n a).1 (processRecord s n a).2
    omega

theorem dedupFold_len (results : List (String × Settled)) (p : DedupState × Nat) :
    ((dedupFold p results).1.allAttendanceRecords).length + p.2
      = p.1.allAttendanceRecords.length + (dedupFold p results).2 := by
  induction results generalizing p with
  | nil => rfl
  | cons a rest ih =>
    rw [dedupFold_cons]
    have h2 := ih (dedupStep p a)
    have h1 : (dedupStep p a).1.allAttendanceRecords.length + p.2
        = p.1.allAttendanceRecords.length + (dedupStep p a).2 := by
      unfold dedupStep
      cases a.2 with
      | fulfilled d => exact processLogs_len d.attendanceLogs p.1 p.2
      | rejected m => rfl
    omega

theorem jsSliceLast_length {α : Type} (n : Nat) (l : List α) (h : n ≤ l.length) :
    (jsSliceLast n l).length = n := by
  unfold jsSliceLast
  rw [List.length_drop]
  omega

/-- C8: the forward outcome never affects local persistence.  Whatever
the HTTP outcome (success, or a thrown error such as an unreachable
collector or a non-2xx response), the cycle's final dedup state, day
file and count are those of the failed-forward run; the day file holds
the committed list; and the side effects are the store write followed by
the POST of the converted new-record slice — commit strictly before the
forward attempt. -/
theorem forwardFailureLocalUnaffected (s : DedupState) (store : Option (List Record))
    (results : List (String × Settled)) (o : Except String String) (e : String)
    (h : 0 < (dedupFold (s, 0) results).2) :
    ((fetchAndSendToAPI s store results o).1.state
       = (fetchAndSendToAPI s store results (.error e)).1.state) ∧
    ((fetchAndSendToAPI s store results o).1.store
       = (fetchAndSendToAPI s store results (.error e)).1.store) ∧
    ((fetchAndSendToAPI s store results o).1.newRecordsCount
       = (fetchAndSendToAPI s store results (.error e)).1.newRecordsCount) ∧
    ((fetchAndSendToAPI s store results (.error e)).1.store
       = some ((fetchAndSendToAPI s store results (.error e)).1.state.allAttendanceRecords)) ∧
    ((fetchAndSendToAPI s store results o).2 =
      [SideEffect.saveFile ((dedupFold (s, 0) results).1.allAttendanceRecords),
       SideEffect.httpPost (convertToCSharpFormat
         (jsSliceLast (dedupFold (s, 0) results).2
           ((dedupFold (s, 0) results).1.allAttendanceRecords)))]) := by
  have hlen : (dedupFold (s, 0) results).2
      ≤ ((dedupFold (s, 0) results).1.allAttendanceRecords).length := by
    have := dedupFold_len results (s, 0)
    omega
  have hne : ¬ ((jsSliceLast (dedupFold (s, 0) results).2
      ((dedupFold (s, 0) results).1.allAttendanceRecords)).length = 0) := by
    rw [jsSliceLast_length _ _ hlen]
    omega
  unfold fetchAndSendToAPI sendToCSharpAPI
  cases o <;> simp [h, hne]

/-- The single-log device result used to exercise a forwarding cycle. -/
def oneLogResult : FetchResult :=
  { info := none, allUsers := [], adminUsers := [],
    attendanceLogs := [{ userSn := 0, deviceUserId := 5, name := "Bob", type := "IN",
                         deviceIP := "192.168.18.253", recordTime := 1000 }],
    deviceIP := "192.168.18.253", status := "online" }

/-- Settled results of a forwarding cycle that accepts one new record. -/
def forwardResults : List (String × Settled) :=
  [("192.168.18.253", .fulfilled oneLogResult)]

/-- Witness for C8 at a one-record cycle. -/
theorem forwardFailureLocalUnaffectedWitness :
    0 < (dedupFold (initialState, 0) forwardResults).2 ∧
    ((fetchAndSendToAPI initialState none forwardResults (.ok "accepted")).1.state
      = (fetchAndSendToAPI initialState none forwardResults (.error "http 500")).1.state) :=
  ⟨by decide,
   (forwardFailureLocalUnaffected initialState none forwardResults (.ok "accepted")
     "http 500" (by decide)).1⟩

/-! ### The JS-Map user deduplication -/

theorem dedupByUserId_concat (l : List User) (u : User) :
    dedupByUserId (l ++ [u]) = mapSetEntry (dedupByUserId l) u := by
  unfold dedupByUserId
  rw [List.foldl_append]
  rfl

theorem findCons {α : Type} (p : α → Bool) (a : α) (l : List α) :
    List.find? p (a :: l) = if p a then some a else List.find? p l := by
  by_cases h : p a = true
  · rw [List.find?_cons_of_pos _ h, if_pos h]
  · rw [List.find?_cons_of_neg _ h, if_neg h]

theorem findReplace (acc : List User) (u : User) (k : Nat) :
    (acc.map (fun v => if v.userId == u.userId then u else v)).find?
        (fun v => v.userId == k)
      = if u.userId == k then
          (if acc.any (fun v => v.userId == u.userId) then some u else none)
        else acc.find? (fun v => v.userId == k) := by
  induction acc with
  | nil => by_cases hk : (u.userId == k) = true <;> simp [hk]
  | cons a rest ih =>
    simp only [List.map_cons, findCons, List.any_cons]
    by_cases ha : (a.userId == u.userId) = true
    · have ha' : a.userId = u.userId := by simpa using ha
      rw [if_pos ha, ih]
      by_cases hk : (u.userId == k) = true
      · simp [ha, hk]
      · have hak : ¬ (a.userId == k) = true := by
          rw [ha']
          exact hk
        simp [ha, hk, hak]
    · rw [if_neg ha, ih]
      by_cases hak : (a.userId == k) = true
      · have hak' : a.userId = k := by simpa using hak
        have ha' : ¬ a.userId = u.userId := by simpa using ha
        have hk : ¬ (u.userId == k) = true := by
          simp only [beq_iff_eq]
          intro hu
          exact ha' (hak'.trans hu.symm)
        simp [ha, hak, hk]
      · by_cases hk : (u.userId == k) = true
        · simp [ha, hak, hk]
        · simp [ha, hak, hk]

theorem mapSetEntry_find (acc : List User) (u : User) (k : Nat) :
    (mapSetEntry acc u).find? (fun v => v.userId == k)
      = if u.userId == k then some u
        else acc.find? (fun v => v.userId == k) := by
  unfold mapSetEntry
  by_cases hany : (acc.any (fun v => v.userId == u.userId)) = true
  · rw [if_pos hany, findReplace, if_pos hany]
  · rw [if_neg hany, List.find?_append]
    by_cases hk : (u.userId == k) = true
    · have hnone : acc.find? (fun v => v.userId == k) = none := by
        refine List.find?_eq_none.mpr (fun x hx hxk => ?_)
        refine hany (List.any_eq_true.mpr ⟨x, hx, ?_⟩)
        have h1 : x.userId = k := by simpa using hxk
        have h2 : u.userId = k := by simpa using hk
        simp [h1, h2]
      rw [hnone, if_pos hk]
      simp [List.find?, hk]
    · rw [if_neg hk]
      have : ([u].find? (fun v => v.userId == k)) = none := by
        simp [List.find?, hk]
      rw [this]
      cases acc.find? (fun v => v.userId == k) <;> rfl

theorem dedupByUserId_find (l : List User) (k : Nat) :
    (dedupByUserId l).find? (fun v => v.userId == k)
      = (l.filter (fun v => v.userId == k)).getLast? := by
  induction l using List.reverseRecOn with
  | nil => rfl
  | append_singleton l u ih =>
    rw [dedupByUserId_concat, mapSetEntry_find, List.filter_append]
    by_cases hk : (u.userId == k) = true
    · rw [if_pos hk]
      have : List.filter (fun v => v.userId == k) [u] = [u] := by simp [hk]
      rw [this, List.getLast?_concat]
    · rw [if_neg hk]
      have : List.filter (fun v => v.userId == k) [u] = [] := by simp [hk]
      rw [this, List.append_nil, ih]

theorem mapSetEntry_keys (acc : List User) (u : User) :
    (mapSetEntry acc u).map (fun v => v.userId)
      = if acc.any (fun v => v.userId == u.userId) then
          acc.map (fun v => v.userId)
        else acc.map (fun v => v.userId) ++ [u.userId] := by
  unfold mapSetEntry
  by_cases hany : (acc.any (fun v => v.userId == u.userId)) = true
  · rw [if_pos hany, if_pos hany, List.map_map]
    refine List.map_congr_left (fun a _ => ?_)
    by_cases hau : (a.userId == u.userId) = true
    · have ha' : a.userId = u.userId := by simpa using hau
      simp only [Function.comp_apply, if_pos hau]
      exact ha'.symm
    · simp only [Function.comp_apply, if_neg hau]
  · rw [if_neg hany, if_neg hany, List.map_append]
    rfl

theorem dedupByUserId_keys_nodup (l : List User) :
    ((dedupByUserId l).map (fun v => v.userId)).Nodup := by
  induction l using List.reverseRecOn with
  | nil => simp [dedupByUserId]
  | append_singleton l u ih =>
    rw [dedupByUserId_concat, mapSetEntry_keys]
    by_cases hany : ((dedupByUserId l).any (fun v => v.userId == u.userId)) = true
    · rw [if_pos hany]
      exact ih
    · rw [if_neg hany]
      refine List.Nodup.append ih (List.nodup_singleton _) ?_
      intro x hx hxu
      simp only [List.mem_singleton] at hxu
      subst hxu
      obtain ⟨v, hv, hvu⟩ := List.mem_map.mp hx
      exact hany (List.any_eq_true.mpr ⟨v, hv, by simp [hvu]⟩)

theorem dedupByUserId_keys_mem (l : List User) (k : Nat) :
    k ∈ (dedupByUserId l).map (fun v => v.userId)
      ↔ k ∈ l.map (fun v => v.userId) := by
  induction l using List.reverseRecOn with
  | nil => simp [dedupByUserId]
  | append_singleton l u ih =>
    rw [dedupByUserId_concat, mapSetEntry_keys, List.map_append]
    by_cases hany : ((dedupByUserId l).any (fun v => v.userId == u.userId)) = true
    · rw [if_pos hany]
      constructor
      · intro h
        exact List.mem_append.mpr (Or.inl (ih.mp h))
      · intro h
        rcases List.mem_append.mp h with h | h
        · exact ih.mpr h
        · simp only [List.map_singleton, List.mem_singleton] at h
          subst h
          obtain ⟨v, hv, hvu⟩ := List.any_eq_true.mp hany
          refine List.mem_map.mpr ⟨v, hv, ?_⟩
          simpa using hvu
    · rw [if_neg hany]
      constructor
      · intro h
        rcases List.mem_append.mp h with h | h
        · exact List.mem_append.mpr (Or.inl (ih.mp h))
        · exact List.mem_append.mpr (Or.inr (by simpa using h))
      · intro h
        rcases List.mem_append.mp h with h | h
        · exact List.mem_append.mpr (Or.inl (ih.mpr h))
        · exact List.mem_append.mpr (Or.inr (by simpa using h))

theorem dedupByUserId_countP (l : List User) (k : Nat)
    (h : k ∈ l.map (fun v => v.userId)) :
    (dedupByUserId l).countP (fun v => v.userId == k) = 1 := by
  have h1 : (dedupByUserId l).countP (fun v => v.userId == k)
      = ((dedupByUserId l).map (fun v => v.userId)).countP (fun x => x == k) := by
    rw [List.countP_map]
    rfl
  have hk : k ∈ (dedupByUserId l).map (fun v => v.userId) :=
    (dedupByUserId_keys_mem l k).mpr h
  have hnd := dedupByUserId_keys_nodup l
  rw [h1]
  exact List.count_eq_one_of_mem hnd hk

theorem dedupByUserId_length_lt (l : List User)
    (h : ¬ (l.map (fun v => v.userId)).Nodup) :
    (dedupByUserId l).length < l.length := by
  have hM : ((dedupByUserId l).map (fun v => v.userId)).Nodup :=
    dedupByUserId_keys_nodup l
  have hfin : ((dedupByUserId l).map (fun v => v.userId)).toFinset
      = (l.map (fun v => v.userId)).toFinset := by
    ext x
    simp only [List.mem_toFinset]
    exact dedupByUserId_keys_mem l x
  have h1 : (dedupByUserId l).length
      = ((dedupByUserId l).map (fun v => v.userId)).length :=
    (List.length_map _ _).symm
  have h2 := List.toFinset_card_of_nodup hM
  have h3 := List.card_toFinset (l.map (fun v => v.userId))
  have h4 : (l.map (fun v => v.userId)).dedup.length
      < (l.map (fun v => v.userId)).length := by
    have hsub := List.dedup_sublist (l.map (fun v => v.userId))
    have hle := hsub.length_le
    have hne : (l.map (fun v => v.userId)).dedup ≠ l.map (fun v => v.userId) :=
      fun he => h (he ▸ List.nodup_dedup (l.map (fun v => v.userId)))
    exact Nat.lt_of_le_of_ne hle (fun hlen => hne (hsub.eq_of_length hlen))
  have h5 : (l.map (fun v => v.userId)).length = l.length := List.length_map _ _
  rw [hfin] at h2
  omega

/-- Device results whose user tables both carry userId 1: X on the first
terminal, Y on the second. -/
def userDupResults : List (String × Settled) :=
  [("10.0.0.1", .fulfilled
     { info := none, allUsers := [⟨1, "X", 0⟩], adminUsers := [],
       attendanceLogs := [], deviceIP := "10.0.0.1", status := "online" }),
   ("10.0.0.2", .fulfilled
     { info := none, allUsers := [⟨1, "Y", 0⟩], adminUsers := [],
       attendanceLogs := [], deviceIP := "10.0.0.2", status := "online" })]

/-- Counterexample to C2: in the `fetchAllDeviceData` variant the
combined user list is deduplicated with `filter`/`findIndex`, which
keeps the EARLIER occurrence: merging X then Y for userId 1 keeps X, not
the claimed later occurrence Y. -/
theorem combinedUserKeepFirstCex :
    (fetchAllDeviceDataCombined userDupResults).allUsers = [⟨1, "X", 0⟩] ∧
    (⟨1, "X", 0⟩ : User) ≠ ⟨1, "Y", 0⟩ := by
  constructor
  · rfl
  · decide

/-- C2 amended: in the combined snapshot built by
`fetchAndSaveNewRecords` (the Map-based dedup), a userId occurring in
the merged per-device user lists has exactly one entry in the combined
user list, and that entry is the later occurrence in input order; the
`fetchAllDeviceData` variant instead keeps the earliest occurrence. -/
theorem combinedUserLastWins (s : DedupState) (store : Option (List Record))
    (results : List (String × Settled)) (k : Nat)
    (h : k ∈ (fulfilledUsers results).map (fun u => u.userId)) :
    ((fetchAndSaveNewRecords s store results).combined.allUsers.countP
        (fun u => u.userId == k) = 1) ∧
    ((fetchAndSaveNewRecords s store results).combined.allUsers.find?
        (fun u => u.userId == k)
      = ((fulfilledUsers results).filter (fun u => u.userId == k)).getLast?) := by
  have hall : (fetchAndSaveNewRecords s store results).combined.allUsers
      = dedupByUserId (fulfilledUsers results) := rfl
  rw [hall]
  exact ⟨dedupByUserId_countP _ k h, dedupByUserId_find _ k⟩

/-- Witness for C2 amended: with X then Y for userId 1 across two
terminals, the combined list has exactly one entry for id 1 and it is
the later occurrence Y. -/
theorem combinedUserLastWinsWitness :
    ((fetchAndSaveNewRecords initialState none userDupResults).combined.allUsers.countP
        (fun u => u.userId == 1) = 1) ∧
    ((fetchAndSaveNewRecords initialState none userDupResults).combined.allUsers.find?
        (fun u => u.userId == 1)
      = ((fulfilledUsers userDupResults).filter (fun u => u.userId == 1)).getLast?) :=
  combinedUserLastWins initialState none userDupResults 1 (by decide)

/-- C10: the combined snapshot's `info.userCounts` is the length of the
pre-dedup concatenation of the per-device user lists, so whenever a
userId repeats across that concatenation the deduplicated `allUsers`
list is strictly shorter than `userCounts`. -/
theorem userCountsPreDedup (s : DedupState) (store : Option (List Record))
    (results : List (String × Settled)) :
    ((fetchAndSaveNewRecords s store results).combined.info.userCounts
      = (fulfilledUsers results).length) ∧
    (¬ ((fulfilledUsers results).map (fun u => u.userId)).Nodup →
      (fetchAndSaveNewRecords s store results).combined.allUsers.length
        < (fetchAndSaveNewRecords s store results).combined.info.userCounts) := by
  refine ⟨rfl, fun h => ?_⟩
  have hall : (fetchAndSaveNewRecords s store results).combined.allUsers
      = dedupByUserId (fulfilledUsers results) := rfl
  have hcnt : (fetchAndSaveNewRecords s store results).combined.info.userCounts
      = (fulfilledUsers results).length := rfl
  rw [hall, hcnt]
  exact dedupByUserId_length_lt _ h

/-- Witness for C10: with userId 1 on both terminals, `userCounts` is 2
while the deduplicated list has length 1. -/
theorem userCountsPreDedupWitness :
    (fetchAndSaveNewRecords initialState none userDupResults).combined.allUsers.length
      < (fetchAndSaveNewRecords initialState none userDupResults).combined.info.userCounts :=
  (userCountsPreDedup initialState none userDupResults).2 (by decide)

/-! ### Filename validation -/

theorem hasDotDot_cons (c : Char) (l : List Char) (h : hasDotDot l = true) :
    hasDotDot (c :: l) = true := by
  cases l with
  | nil => simp [hasDotDot] at h
  | cons d rest => simp [hasDotDot, h]

theorem splitOnSlash_ne_nil (l : List Char) : splitOnSlash l ≠ [] := by
  cases l with
  | nil => simp [splitOnSlash]
  | cons c rest =>
    unfold splitOnSlash
    by_cases hc : c = '/'
    · simp [hc]
    · rw [if_neg hc]
      cases splitOnSlash rest <;> simp

theorem splitOnSlash_head (l : List Char) :
    ∀ seg segs, splitOnSlash l = seg :: segs → ∃ t, l = seg ++ t := by
  induction l with
  | nil =>
    intro seg segs h
    simp only [splitOnSlash] at h
    injection h with h1 _
    exact ⟨[], by rw [← h1]; rfl⟩
  | cons c rest ih =>
    intro seg segs h
    unfold splitOnSlash at h
    by_cases hc : c = '/'
    · rw [if_pos hc] at h
      injection h with h1 _
      exact ⟨c :: rest, by rw [← h1]; rfl⟩
    · rw [if_neg hc] at h
      cases hsp : splitOnSlash rest with
      | nil => exact absurd hsp (splitOnSlash_ne_nil rest)
      | cons s ss =>
        rw [hsp] at h
        injection h with h1 _
        obtain ⟨t, ht⟩ := ih s ss hsp
        refine ⟨t, ?_⟩
        rw [← h1, ht]
        rfl

theorem dotdotSegmentHasDotDot (l : List Char) :
    ∀ seg, seg ∈ splitOnSlash l → seg = ['.', '.'] → hasDotDot l = true := by
  induction l with
  | nil =>
    intro seg h he
    simp only [splitOnSlash, List.mem_singleton] at h
    rw [h] at he
    cases he
  | cons c rest ih =>
    intro seg h he
    unfold splitOnSlash at h
    by_cases hc : c = '/'
    · rw [if_pos hc] at h
      rcases List.mem_cons.mp h with h | h
      · rw [← h] at he
        cases he
      · exact hasDotDot_cons c rest (ih seg h he)
    · rw [if_neg hc] at h
      cases hsp : splitOnSlash rest with
      | nil => exact absurd hsp (splitOnSlash_ne_nil rest)
      | cons s ss =>
        rw [hsp] at h
        rcases List.mem_cons.mp h with h | h
        · rw [he] at h
          injection h with hcd hs
          obtain ⟨t, ht⟩ := splitOnSlash_head rest s ss hsp
          rw [← hs] at ht
          rw [ht]
          simp [hasDotDot, hcd.symm]
        · have hmem : seg ∈ splitOnSlash rest := by
            rw [hsp]
            exact List.mem_cons_of_mem s h
          exact hasDotDot_cons c rest (ih seg hmem he)

/-- Counterexample to C9: the filename `x.json` passes the endpoints'
validation (no `..`, ends in `.json`) but is not a bare day-stamped
filename, and with such a file present the read endpoint does read it —
so not every non-day-stamped name is rejected before filesystem
access. -/
theorem filenameNotDayStampedCex :
    validFilename ("x.json".toList) = true ∧
    isDayStampedFilename ("x.json".toList) = false ∧
    (readDayEndpoint ("x.json".toList) [("x.json".toList, "[]")]).2 = true := by
  refine ⟨by decide, by decide, by decide⟩

/-- C9 amended: the read and delete endpoints validate the filename
before any filesystem access, but only against the weaker predicate
"contains no `..` and ends in `.json`": every name failing that check is
rejected with an error response, no read occurs and the store is left
unchanged, and every name passing it is free of `..` path-traversal
segments — day-stamped shape is not enforced. -/
theorem filenameValidationAmended (name : List Char) (fs : FileStore) :
    (validFilename name = false →
      (readDayEndpoint name fs).1 = ApiResponse.badRequest "Invalid filename" ∧
      (readDayEndpoint name fs).2 = false ∧
      (deleteDayEndpoint name fs).1 = ApiResponse.badRequest "Invalid filename" ∧
      (deleteDayEndpoint name fs).2 = fs) ∧
    (validFilename name = true → ['.', '.'] ∉ splitOnSlash name) := by
  constructor
  · intro h
    refine ⟨?_, ?_, ?_, ?_⟩ <;> simp [readDayEndpoint, deleteDayEndpoint, h]
  · intro h hmem
    have hdd : hasDotDot name = true := dotdotSegmentHasDotDot name _ hmem rfl
    unfold validFilename at h
    rw [hdd] at h
    simp at h

/-- Witness for C9 amended: a traversal name is rejected with the store
untouched, and an accepted name has no traversal segment. -/
theorem filenameValidationAmendedWitness :
    (validFilename ("../a.json".toList) = false ∧
     (deleteDayEndpoint ("../a.json".toList) []).2 = []) ∧
    (validFilename ("a.json".toList) = true ∧
     ['.', '.'] ∉ splitOnSlash ("a.json".toList)) :=
  ⟨⟨by decide, ((filenameValidationAmended ("../a.json".toList) []).1 (by decide)).2.2.2⟩,
   ⟨by decide, (filenameValidationAmended ("a.json".toList) []).2 (by decide)⟩⟩

end Attendance
